import Mathlib

/-!
Verification of the Dart FFI bridge dispatch layer (`bridge/exports.go`,
`bridge/QUICK_REFERENCE.go`): a shallow embedding of the dispatch functions,
of the fragment of Go's `encoding/json` they use (`json.Marshal` and
`json.Unmarshal`), and of the response-envelope protocol, together with
theorems about the envelopes each dispatch function sends.

Conventions of the embedding:
- A dispatch function `f(port C.longlong, ...)` becomes a Lean function from
  the port and the (already `C.GoString`-converted) string arguments to a
  `CallTrace`: the ordered list of `SendResponseToPort` calls it performs plus
  the list of engine operations it invokes.  In this template code every
  engine call site is commented out in the source, so no dispatch function
  ever records an engine operation.
- Go strings become Lean `String`; `*T` struct fields become `Option T`;
  Go `int` fields become `Int` (the 64-bit range shows up as an explicit
  range check where `encoding/json` performs one).
- `json.Marshal` is modelled as a partial function over `GoValue`, a universe
  of Go `interface` values that includes the kinds `Marshal` rejects, so the
  error branch at each `Marshal` call site is represented faithfully.
- `json.Unmarshal` is modelled as a full JSON parser over `Char` lists (fuel
  driven, structurally recursive) followed by Go-style decoding into either a
  `map[string]interface` value or a `ConfigGeneralSettings` struct.
-/

namespace Bridge

/-! ### The response envelope and the send primitive -/

/-- Modelled from the spec: the Response Envelope type `DartResponse` (its
defining file is not part of the sources; `exports.go` constructs it with
fields `Success`, `Message`, `Data`, and the spec gives the wire shape
`{ "success": bool, "message": string, "data": string }` with Go zero-value
defaults, i.e. empty strings, for omitted fields). -/
structure DartResponse where
  Success : Bool
  Message : String := ""
  Data : String := ""
deriving Repr, DecidableEq

/-- The observable effects of one dispatch-function call: the sequence of
`(port, envelope)` pairs passed to `SendResponseToPort`, in order, and the
names of the engine operations invoked.  In the source every engine call
site is commented out (`TODO`), so dispatch functions never record one. -/
structure CallTrace where
  sent : List (Int × DartResponse)
  engineOps : List String
deriving Repr, DecidableEq

/-- Modelled from the spec: `SendResponseToPort port resp` delivers exactly one
envelope to the given port (its defining file is not part of the sources; the
spec's Port Response Channel contract is one message per `send`).  As a trace,
it is the singleton send with no engine work. -/
def SendResponseToPort (port : Int) (resp : DartResponse) : CallTrace :=
  ⟨[(port, resp)], []⟩

/-! ### Go `interface` values as `json.Marshal` sees them

`GoValue` covers the values the bridge passes to `json.Marshal`: `nil`,
booleans, integers, strings, `map[string]interface` values, structs (their
fields already in declaration order with `omitempty` applied), and a
constructor for the kinds `Marshal` rejects (functions, channels, complex
numbers), which makes the modelled `Marshal` genuinely partial, as Go's is. -/

mutual
inductive GoValue where
  | gNil
  | gBool (b : Bool)
  | gInt (n : Int)
  | gString (s : String)
  | gMapSI (entries : GoFields)
  | gStruct (fields : GoFields)
  | gUnsupported (ty : String)
inductive GoFields where
  | gfnil
  | gfcons (key : String) (val : GoValue) (tail : GoFields)
end

/-! ### JSON values

`JValue` is the JSON term language.  A number is kept as its literal token
(e.g. `"8080"`), which is exactly the information Go's decoder keeps before a
target type forces an interpretation.  `JList` and `JFields` are unrolled
list types so that all recursion over `JValue` is structural (and therefore
kernel-computable). -/

mutual
inductive JValue where
  | jNull
  | jBool (b : Bool)
  | jNum (lit : String)
  | jStr (s : String)
  | jArr (elems : JList)
  | jObj (fields : JFields)
inductive JList where
  | jnil
  | jcons (head : JValue) (tail : JList)
inductive JFields where
  | fnil
  | fcons (key : String) (val : JValue) (tail : JFields)
end

/-! ### Decimal literals for integers -/

/-- The decimal digit character for `d < 10`. -/
def digitChar (d : Nat) : Char := Char.ofNat (48 + d)

/-- Little-endian decimal digits of `n`, driven by fuel (any fuel above `n`
is enough); `natDigitsLE 0 = []`. -/
def natDigitsLE : Nat → Nat → List Nat
  | 0, _ => []
  | fuel + 1, n => if n = 0 then [] else n % 10 :: natDigitsLE fuel (n / 10)

/-- The decimal digit characters of `n`, most significant first. -/
def natLitChars (n : Nat) : List Char :=
  if n = 0 then ['0'] else ((natDigitsLE (n + 1) n).map digitChar).reverse

/-- The characters of the decimal literal Go prints for an `Int`. -/
def intLitChars (i : Int) : List Char :=
  (if i < 0 then ['-'] else []) ++ natLitChars i.natAbs

/-- The decimal literal Go prints for an `Int` (what `json.Marshal` emits for
an `int` value). -/
def intLit (i : Int) : String := String.mk (intLitChars i)

/-! ### Go's JSON string escaping

`encoding/json` (with its default HTML escaping) escapes the quote, the
backslash, `\n`, `\r`, `\t`, every other control character as `\u00XX`,
the HTML characters `<`, `>`, `&` as `<`, `>`, `&`, and the
line separators U+2028 and U+2029. -/

/-- Lower-case hexadecimal digit character for `d < 16`. -/
def hexChar (d : Nat) : Char :=
  if d < 10 then Char.ofNat (48 + d) else Char.ofNat (87 + d)

/-- How Go's JSON encoder escapes one character of a string. -/
def goEscapeChar (c : Char) : List Char :=
  if c = '"' then ['\\', '"']
  else if c = '\\' then ['\\', '\\']
  else if c = '\n' then ['\\', 'n']
  else if c = '\r' then ['\\', 'r']
  else if c = '\t' then ['\\', 't']
  else if c = '<' then ['\\', 'u', '0', '0', '3', 'c']
  else if c = '>' then ['\\', 'u', '0', '0', '3', 'e']
  else if c = '&' then ['\\', 'u', '0', '0', '2', '6']
  else if c.toNat < 32 then
    ['\\', 'u', '0', '0', hexChar (c.toNat / 16), hexChar (c.toNat % 16)]
  else if c.toNat = 0x2028 then ['\\', 'u', '2', '0', '2', '8']
  else if c.toNat = 0x2029 then ['\\', 'u', '2', '0', '2', '9']
  else [c]

/-- A Go-escaped, quoted JSON string, as characters. -/
def quoteChars (s : String) : List Char :=
  '"' :: (s.data.flatMap goEscapeChar ++ ['"'])

/-! ### Serializing a `JValue` (the output side of `json.Marshal`) -/

mutual
/-- The characters `json.Marshal` emits for a JSON value. -/
def serJ : JValue → List Char
  | .jNull => ['n', 'u', 'l', 'l']
  | .jBool true => ['t', 'r', 'u', 'e']
  | .jBool false => ['f', 'a', 'l', 's', 'e']
  | .jNum lit => lit.data
  | .jStr s => quoteChars s
  | .jArr es => '[' :: (serList es ++ [']'])
  | .jObj fs => '{' :: (serFields fs ++ ['}'])
/-- Comma-separated array elements. -/
def serList : JList → List Char
  | .jnil => []
  | .jcons v .jnil => serJ v
  | .jcons v tl => serJ v ++ ',' :: serList tl
/-- Comma-separated `"key":value` object members. -/
def serFields : JFields → List Char
  | .fnil => []
  | .fcons k v .fnil => quoteChars k ++ ':' :: serJ v
  | .fcons k v tl => quoteChars k ++ ':' :: serJ v ++ ',' :: serFields tl
end

/-! ### The modelled `json.Marshal` -/

/-- Lexicographic order on character lists by code point; UTF-8 byte order
coincides with it, so this is Go's map-key sort order. -/
def charListLE : List Char → List Char → Bool
  | [], _ => true
  | _ :: _, [] => false
  | a :: as, b :: bs =>
    if a.toNat < b.toNat then true
    else if b.toNat < a.toNat then false
    else charListLE as bs

/-- Whether `a` sorts at or before `b` in Go's map-key order. -/
def keyLE (a b : String) : Bool := charListLE a.data b.data

/-- Insert one entry into a key-sorted field list (Go sorts map keys before
encoding a map). -/
def insertField (k : String) (v : JValue) : JFields → JFields
  | .fnil => .fcons k v .fnil
  | .fcons k' v' tl =>
    if keyLE k k' then .fcons k v (.fcons k' v' tl)
    else .fcons k' v' (insertField k v tl)

/-- Sort a map's entries by key, as Go's encoder does. -/
def sortFields : JFields → JFields
  | .fnil => .fnil
  | .fcons k v tl => insertField k v (sortFields tl)

mutual
/-- `json.Marshal`'s conversion of a Go value into a JSON value; fails (as Go
does) on unsupported kinds, anywhere in the value.  A map's entries are
key-sorted, as Go's encoder emits them. -/
def goMarshalJ : GoValue → Except String JValue
  | .gNil => .ok .jNull
  | .gBool b => .ok (.jBool b)
  | .gInt n => .ok (.jNum (intLit n))
  | .gString s => .ok (.jStr s)
  | .gMapSI es => match goMarshalFields es with
    | .ok fs => .ok (.jObj (sortFields fs))
    | .error e => .error e
  | .gStruct fs => match goMarshalFields fs with
    | .ok fs' => .ok (.jObj fs')
    | .error e => .error e
  | .gUnsupported ty => .error ("json: unsupported type: " ++ ty)
/-- Marshal each field value in order, stopping at the first failure. -/
def goMarshalFields : GoFields → Except String JFields
  | .gfnil => .ok .fnil
  | .gfcons k v tl => match goMarshalJ v with
    | .error e => .error e
    | .ok jv => match goMarshalFields tl with
      | .error e => .error e
      | .ok jtl => .ok (.fcons k jv jtl)
end

/-- The modelled `json.Marshal`: convert, then serialize to a string. -/
def jsonMarshal (v : GoValue) : Except String String :=
  match goMarshalJ v with
  | .error e => .error e
  | .ok j => .ok (String.mk (serJ j))

/-! ### `ConfigGeneralSettings` (exports.go lines 43–52) -/

/-- `ConfigGeneralSettings` from `exports.go`: every field is a pointer with
an `omitempty` JSON tag, so `Option` models presence. -/
structure ConfigGeneralSettings where
  AllowLan : Option Bool := none
  BindAddress : Option String := none
  LogLevel : Option String := none
  Port : Option Int := none
  SocksPort : Option Int := none
  MixedPort : Option Int := none
  RedirPort : Option Int := none
  TProxyPort : Option Int := none
deriving Repr, DecidableEq

/-- `ptrBool` from `exports.go` (`&v` becomes presence). -/
def ptrBool (v : Bool) : Option Bool := some v

/-- `ptrString` from `exports.go`. -/
def ptrString (v : String) : Option String := some v

/-- `ptrInt` from `exports.go`. -/
def ptrInt (v : Int) : Option Int := some v

/-- One struct field as `json.Marshal` sees it: present pointers contribute a
tagged entry, `nil` pointers are dropped by `omitempty`. -/
def optEntry (name : String) (f : α → GoValue) : Option α → GoFields → GoFields
  | some v, tl => .gfcons name (f v) tl
  | none, tl => tl

/-- The `GoValue` that marshalling a `*ConfigGeneralSettings` traverses: the
struct's fields in declaration order under their JSON tags, `nil` pointers
omitted (`omitempty`). -/
def cfgToGo (c : ConfigGeneralSettings) : GoValue :=
  .gStruct
    (optEntry "allowLan" .gBool c.AllowLan
      (optEntry "bindAddress" .gString c.BindAddress
        (optEntry "logLevel" .gString c.LogLevel
          (optEntry "port" .gInt c.Port
            (optEntry "socksPort" .gInt c.SocksPort
              (optEntry "mixedPort" .gInt c.MixedPort
                (optEntry "redirPort" .gInt c.RedirPort
                  (optEntry "tproxyPort" .gInt c.TProxyPort .gfnil))))))))

/-! ### The dispatch functions of `exports.go`

Each function's value is the `CallTrace` of one invocation: the
`SendResponseToPort` calls it makes (in order) and the engine operations it
invokes.  The port argument is the Go `C.longlong` call token, already
converted by `int64(port)` at every send in the source. -/

/-- `getGeneralConfig` (exports.go 58–82): builds the hard-coded
`ConfigGeneralSettings`, marshals it, and sends either the failure envelope
(marshal error) or the success envelope carrying the JSON text. -/
def getGeneralConfig (port : Int) : CallTrace :=
  let general : ConfigGeneralSettings :=
    { AllowLan := ptrBool true
      BindAddress := ptrString "0.0.0.0"
      Port := ptrInt 8080 }
  match jsonMarshal (cfgToGo general) with
  | .error err => SendResponseToPort port { Success := false, Message := err }
  | .ok data => SendResponseToPort port { Success := true, Data := data }

/-! ### Parsing JSON (the input side of `json.Unmarshal`)

The parser follows Go's `encoding/json` scanner: it skips JSON whitespace
between tokens, accepts the full JSON grammar, rejects raw control characters
inside string literals, decodes the standard escapes (with Go's
replacement-character handling of invalid `\uXXXX` surrogates), and keeps a
number's literal token for the decoding stage.  Recursion is driven by a fuel
counter, with more than enough fuel supplied at the entry point. -/

/-- Structured decode errors, mirroring the error values Go's `encoding/json`
produces; `JErr.render` gives the `err.Error()` text the bridge puts into the
failure envelope's `Message`. -/
inductive JErr where
  | unexpectedEnd
  | invalidChar (c : Char) (ctx : String)
  | cannotUnmarshal (what target : String)
deriving Repr, DecidableEq

/-- The first byte of a character's UTF-8 encoding (Go's scanner reports
offending input bytes; the first byte of a multi-byte rune is what reaches
the error message). -/
def utf8FirstByte (c : Char) : Nat :=
  if c.toNat < 0x80 then c.toNat
  else if c.toNat < 0x800 then 0xC0 + c.toNat / 64
  else if c.toNat < 0x10000 then 0xE0 + c.toNat / 4096
  else 0xF0 + c.toNat / 262144

/-- Go's `quoteChar` on one byte: `'` and `"` specially; other bytes with
`strconv.Quote`'s escapes — printable ASCII and printable Latin-1 as
themselves, the named control escapes, and `\xNN` for the rest. -/
def quoteGoByte (b : Nat) : String :=
  if b = 39 then String.mk ['\'', '\\', '\'', '\'']
  else if b = 34 then String.mk ['\'', '"', '\'']
  else if b = 92 then String.mk ['\'', '\\', '\\', '\'']
  else if b = 7 then String.mk ['\'', '\\', 'a', '\'']
  else if b = 8 then String.mk ['\'', '\\', 'b', '\'']
  else if b = 9 then String.mk ['\'', '\\', 't', '\'']
  else if b = 10 then String.mk ['\'', '\\', 'n', '\'']
  else if b = 11 then String.mk ['\'', '\\', 'v', '\'']
  else if b = 12 then String.mk ['\'', '\\', 'f', '\'']
  else if b = 13 then String.mk ['\'', '\\', 'r', '\'']
  else if 32 ≤ b ∧ b ≤ 126 then String.mk ['\'', Char.ofNat b, '\'']
  else if 0xA1 ≤ b ∧ b ≤ 0xFF ∧ b ≠ 0xAD then String.mk ['\'', Char.ofNat b, '\'']
  else String.mk ('\'' :: '\\' :: 'x' :: hexChar (b / 16) :: hexChar (b % 16) :: ['\''])

/-- A character quoted for a scanner error message: Go quotes the offending
input byte. -/
def quoteErrChar (c : Char) : String := quoteGoByte (utf8FirstByte c)

/-- The `err.Error()` text of a decode error. -/
def JErr.render : JErr → String
  | .unexpectedEnd => "unexpected end of JSON input"
  | .invalidChar c ctx => "invalid character " ++ quoteErrChar c ++ " " ++ ctx
  | .cannotUnmarshal what target =>
    "json: cannot unmarshal " ++ what ++ " into " ++ target

/-- JSON whitespace, as Go's scanner skips it. -/
def isWsChar (c : Char) : Bool := c = ' ' || c = '\t' || c = '\n' || c = '\r'

/-- ASCII decimal digit test. -/
def isDigitChar (c : Char) : Bool := 48 ≤ c.toNat && c.toNat ≤ 57

/-- Drop leading JSON whitespace. -/
def skipWs : List Char → List Char
  | [] => []
  | c :: cs => if isWsChar c then skipWs cs else c :: cs

/-- Split off the longest leading run of decimal digits. -/
def takeDigits : List Char → List Char × List Char
  | [] => ([], [])
  | c :: cs =>
    if isDigitChar c then
      let p := takeDigits cs
      (c :: p.1, p.2)
    else ([], c :: cs)

/-- The value of a hexadecimal digit character, if it is one. -/
def hexVal : Char → Option Nat := fun c =>
  if 48 ≤ c.toNat ∧ c.toNat ≤ 57 then some (c.toNat - 48)
  else if 97 ≤ c.toNat ∧ c.toNat ≤ 102 then some (c.toNat - 87)
  else if 65 ≤ c.toNat ∧ c.toNat ≤ 70 then some (c.toNat - 55)
  else none

/-- The character a single-character JSON escape denotes, if valid. -/
def simpleEscape (e : Char) : Option Char :=
  if e = '"' then some '"'
  else if e = '\\' then some '\\'
  else if e = '/' then some '/'
  else if e = 'b' then some (Char.ofNat 8)
  else if e = 'f' then some (Char.ofNat 12)
  else if e = 'n' then some '\n'
  else if e = 'r' then some '\r'
  else if e = 't' then some '\t'
  else none

/-- The value of four hex digits, if all are valid. -/
def hex4 (a b c d : Char) : Option Nat :=
  match hexVal a, hexVal b, hexVal c, hexVal d with
  | some va, some vb, some vc, some vd => some (((va * 16 + vb) * 16 + vc) * 16 + vd)
  | _, _, _, _ => none

/-- Parse the body of a string literal after its opening quote, accumulating
decoded characters in reverse.  Raw control characters are rejected; a
surrogate `\uXXXX` escape combines with an immediately following low
surrogate, and otherwise decodes to U+FFFD, exactly as Go's decoder handles
it (an unpairable second escape is left in place to be decoded on its own).
One unit of fuel covers one decoded character, so any fuel above the input
length is enough. -/
def parseStrBody : Nat → List Char → List Char → Except JErr (String × List Char)
  | 0, _, _ => .error .unexpectedEnd
  | _ + 1, _, [] => .error .unexpectedEnd
  | fuel + 1, acc, c :: rest =>
    if c = '"' then .ok (String.mk acc.reverse, rest)
    else if c = '\\' then
      match rest with
      | [] => .error .unexpectedEnd
      | e :: rest2 =>
        if e = 'u' then
          match rest2 with
          | [] => .error .unexpectedEnd
          | a :: ra =>
            match hexVal a with
            | none => .error (.invalidChar a "in \\u hexadecimal character escape")
            | some va =>
            match ra with
            | [] => .error .unexpectedEnd
            | b :: rb =>
            match hexVal b with
            | none => .error (.invalidChar b "in \\u hexadecimal character escape")
            | some vb =>
            match rb with
            | [] => .error .unexpectedEnd
            | c2 :: rc =>
            match hexVal c2 with
            | none => .error (.invalidChar c2 "in \\u hexadecimal character escape")
            | some vc =>
            match rc with
            | [] => .error .unexpectedEnd
            | d :: rest3 =>
            match hexVal d with
            | none => .error (.invalidChar d "in \\u hexadecimal character escape")
            | some vd =>
              let n := ((va * 16 + vb) * 16 + vc) * 16 + vd
              if 0xD800 ≤ n ∧ n ≤ 0xDFFF then
                match rest3 with
                | '\\' :: 'u' :: a2 :: b2 :: c3 :: d2 :: rest4 =>
                  (match hex4 a2 b2 c3 d2 with
                  | some m =>
                    if 0xD800 ≤ n ∧ n ≤ 0xDBFF ∧ 0xDC00 ≤ m ∧ m ≤ 0xDFFF then
                      parseStrBody fuel
                        (Char.ofNat (0x10000 + (n - 0xD800) * 0x400 + (m - 0xDC00)) :: acc)
                        rest4
                    else parseStrBody fuel (Char.ofNat 0xFFFD :: acc) rest3
                  | none => parseStrBody fuel (Char.ofNat 0xFFFD :: acc) rest3)
                | _ => parseStrBody fuel (Char.ofNat 0xFFFD :: acc) rest3
              else parseStrBody fuel (Char.ofNat n :: acc) rest3
        else
          match simpleEscape e with
          | some ch => parseStrBody fuel (ch :: acc) rest2
          | none => .error (.invalidChar e "in string escape code")
    else if c.toNat < 32 then .error (.invalidChar c "in string literal")
    else parseStrBody fuel (c :: acc) rest

/-- Parse the fraction part of a number, if present. -/
def parseFrac : List Char → Except JErr (List Char × List Char)
  | [] => .ok ([], [])
  | c :: r =>
    if c = '.' then
      match takeDigits r with
      | ([], _) =>
        .error (match r with
          | [] => .unexpectedEnd
          | c2 :: _ => .invalidChar c2 "after decimal point in numeric literal")
      | (ds, r2) => .ok ('.' :: ds, r2)
    else .ok ([], c :: r)

/-- Parse the exponent part of a number, if present. -/
def parseExp : List Char → Except JErr (List Char × List Char)
  | [] => .ok ([], [])
  | e :: r =>
    if e = 'e' ∨ e = 'E' then
      let p : List Char × List Char :=
        match r with
        | [] => ([], [])
        | c :: r1 => if c = '+' then (['+'], r1) else if c = '-' then (['-'], r1) else ([], c :: r1)
      match takeDigits p.2 with
      | ([], _) =>
        .error (match p.2 with
          | [] => .unexpectedEnd
          | c :: _ => .invalidChar c "in exponent of numeric literal")
      | (ds, r2) => .ok (e :: (p.1 ++ ds), r2)
    else .ok ([], e :: r)

/-- Parse one JSON number, returning its literal token.  The caller has
checked that the input starts with `-` or a digit. -/
def parseNum (cs : List Char) : Except JErr (String × List Char) :=
  let sp : List Char × List Char :=
    match cs with
    | [] => ([], [])
    | c :: r => if c = '-' then (['-'], r) else ([], c :: r)
  match sp.2 with
  | [] => .error .unexpectedEnd
  | c :: r =>
    if isDigitChar c then
      let ip : List Char × List Char :=
        if c = '0' then (['0'], r)
        else
          let p := takeDigits r
          (c :: p.1, p.2)
      match parseFrac ip.2 with
      | .error e => .error e
      | .ok (fp, r2) =>
        match parseExp r2 with
        | .error e => .error e
        | .ok (ep, r3) => .ok (String.mk (sp.1 ++ ip.1 ++ fp ++ ep), r3)
    else .error (.invalidChar c "in numeric literal")

/-- Scan the continuation of a keyword literal (`null`/`true`/`false`) after
its first character, as Go's scanner does: position by position, blaming the
first mismatching input character and naming the expected one. -/
def scanLit (name : String) : List Char → List Char → Except JErr (List Char)
  | [], rest => .ok rest
  | _ :: _, [] => .error .unexpectedEnd
  | e :: es, c :: rest =>
    if c = e then scanLit name es rest
    else .error (.invalidChar c ("in literal " ++ name ++ " (expecting " ++
      String.mk ['\'', e, '\''] ++ ")"))

mutual
/-- Parse one JSON value (fuel-driven; the entry point supplies ample fuel).
The branch taken is decided by the first non-whitespace character, as in
Go's scanner; `depth` counts the open composites around this value, and a
`{` or `[` that would nest deeper than 10000 is rejected. -/
def parseVal : Nat → Nat → List Char → Except JErr (JValue × List Char)
  | 0, _, _ => .error .unexpectedEnd
  | fuel + 1, depth, cs =>
    match skipWs cs with
    | [] => .error .unexpectedEnd
    | c :: r =>
      if c = 'n' then
        match scanLit "null" ['u', 'l', 'l'] r with
        | .ok r2 => .ok (.jNull, r2)
        | .error e => .error e
      else if c = 't' then
        match scanLit "true" ['r', 'u', 'e'] r with
        | .ok r2 => .ok (.jBool true, r2)
        | .error e => .error e
      else if c = 'f' then
        match scanLit "false" ['a', 'l', 's', 'e'] r with
        | .ok r2 => .ok (.jBool false, r2)
        | .error e => .error e
      else if c = '"' then
        match parseStrBody (r.length + 1) [] r with
        | .ok (s, r2) => .ok (.jStr s, r2)
        | .error e => .error e
      else if c = '{' then
        if 10000 < depth + 1 then .error (.invalidChar c "exceeded max depth")
        else
          match skipWs r with
          | [] => .error .unexpectedEnd
          | c2 :: r2 =>
            if c2 = '}' then .ok (.jObj .fnil, r2)
            else
              match parseMembers fuel (depth + 1) (c2 :: r2) with
              | .ok (fs, r3) => .ok (.jObj fs, r3)
              | .error e => .error e
      else if c = '[' then
        if 10000 < depth + 1 then .error (.invalidChar c "exceeded max depth")
        else
          match skipWs r with
          | [] => .error .unexpectedEnd
          | c2 :: r2 =>
            if c2 = ']' then .ok (.jArr .jnil, r2)
            else
              match parseItems fuel (depth + 1) (c2 :: r2) with
              | .ok (es, r3) => .ok (.jArr es, r3)
              | .error e => .error e
      else if c = '-' ∨ isDigitChar c then
        match parseNum (c :: r) with
        | .ok (lit, r2) => .ok (.jNum lit, r2)
        | .error e => .error e
      else .error (.invalidChar c "looking for beginning of value")
/-- Parse one or more `"key": value` members; the empty object is handled by
`parseVal`. -/
def parseMembers : Nat → Nat → List Char → Except JErr (JFields × List Char)
  | 0, _, _ => .error .unexpectedEnd
  | fuel + 1, depth, cs =>
    match skipWs cs with
    | [] => .error .unexpectedEnd
    | c :: r =>
      if c = '"' then
        match parseStrBody (r.length + 1) [] r with
        | .error e => .error e
        | .ok (key, r1) =>
          match skipWs r1 with
          | [] => .error .unexpectedEnd
          | c2 :: r2 =>
            if c2 = ':' then
              match parseVal fuel depth r2 with
              | .error e => .error e
              | .ok (v, r3) =>
                match skipWs r3 with
                | [] => .error .unexpectedEnd
                | c3 :: r4 =>
                  if c3 = ',' then
                    match parseMembers fuel depth r4 with
                    | .ok (fs, r5) => .ok (.fcons key v fs, r5)
                    | .error e => .error e
                  else if c3 = '}' then .ok (.fcons key v .fnil, r4)
                  else .error (.invalidChar c3 "after object key:value pair")
            else .error (.invalidChar c2 "after object key")
      else .error (.invalidChar c "looking for beginning of object key string")
/-- Parse one or more comma-separated array elements; the empty array is
handled by `parseVal`. -/
def parseItems : Nat → Nat → List Char → Except JErr (JList × List Char)
  | 0, _, _ => .error .unexpectedEnd
  | fuel + 1, depth, cs =>
    match parseVal fuel depth cs with
    | .error e => .error e
    | .ok (v, r) =>
      match skipWs r with
      | [] => .error .unexpectedEnd
      | c :: r2 =>
        if c = ',' then
          match parseItems fuel depth r2 with
          | .ok (es, r3) => .ok (.jcons v es, r3)
          | .error e => .error e
        else if c = ']' then .ok (.jcons v .jnil, r2)
        else .error (.invalidChar c "after array element")
end

/-- Parse a complete JSON document: one value and nothing but whitespace
after it. -/
def jsonParse (s : String) : Except JErr JValue :=
  match parseVal (2 * (s.data.length + 1)) 0 s.data with
  | .error e => .error e
  | .ok (v, rest) =>
    match skipWs rest with
    | [] => .ok v
    | c :: _ => .error (.invalidChar c "after top-level value")

/-! ### Decoding a parsed value into a Go target (`json.Unmarshal`) -/

/-- The word Go's type-mismatch errors use for a JSON value's kind. -/
def jsonWhat : JValue → String
  | .jNull => "null"
  | .jBool _ => "bool"
  | .jNum _ => "number"
  | .jStr _ => "string"
  | .jArr _ => "array"
  | .jObj _ => "object"

/-- The numeric value of a run of decimal digit characters, most significant
first. -/
def digitsVal (ds : List Char) : Nat :=
  ds.foldl (fun a c => a * 10 + (c.toNat - 48)) 0

/-- The overflow threshold of `strconv.ParseFloat` for 64-bit floats: an
exact decimal magnitude at or above the rounds-to-infinity midpoint
`2^1024 - 2^970` yields `±Inf` with a range error. -/
def float64OverflowBound : Nat := 2 ^ 1024 - 2 ^ 970

/-- Whether `strconv.ParseFloat(lit, 64)` reports a range error for this
(grammatically valid) JSON number literal: the literal's exact decimal
magnitude reaches the overflow threshold.  Underflowing literals return
zero without an error, as in Go's `atof`. -/
def numOverflows (lit : String) : Bool :=
  let ds : List Char :=
    match lit.data with
    | '-' :: r => r
    | r => r
  let ip := ds.takeWhile isDigitChar
  let r1 := ds.dropWhile isDigitChar
  let fp : List Char :=
    match r1 with
    | '.' :: r => r.takeWhile isDigitChar
    | _ => []
  let r2 : List Char :=
    match r1 with
    | '.' :: r => r.dropWhile isDigitChar
    | _ => r1
  let ev : Int :=
    match r2 with
    | 'e' :: '+' :: r3 => (digitsVal (r3.takeWhile isDigitChar) : Int)
    | 'E' :: '+' :: r3 => (digitsVal (r3.takeWhile isDigitChar) : Int)
    | 'e' :: '-' :: r3 => -(digitsVal (r3.takeWhile isDigitChar) : Int)
    | 'E' :: '-' :: r3 => -(digitsVal (r3.takeWhile isDigitChar) : Int)
    | 'e' :: r3 => (digitsVal (r3.takeWhile isDigitChar) : Int)
    | 'E' :: r3 => (digitsVal (r3.takeWhile isDigitChar) : Int)
    | _ => 0
  let M := digitsVal (ip ++ fp)
  let E : Int := ev - (fp.length : Int)
  if M = 0 then false
  else if 0 ≤ E then decide (float64OverflowBound ≤ M * 10 ^ E.toNat)
  else decide (float64OverflowBound * 10 ^ (-E).toNat ≤ M)

mutual
/-- The first `float64` conversion error hit while decoding a parsed value
into `interface{}`: Go's decoder converts every number in the tree with
`strconv.ParseFloat` (in document order) and reports the first failure. -/
def convNum : JValue → Option JErr
  | .jNum lit =>
    if numOverflows lit then
      some (.cannotUnmarshal ("number " ++ lit) "Go value of type float64")
    else none
  | .jArr es => convNumList es
  | .jObj fs => convNumFields fs
  | _ => none
def convNumList : JList → Option JErr
  | .jnil => none
  | .jcons v tl =>
    match convNum v with
    | some e => some e
    | none => convNumList tl
def convNumFields : JFields → Option JErr
  | .fnil => none
  | .fcons _ v tl =>
    match convNum v with
    | some e => some e
    | none => convNumFields tl
end

/-- The modelled `json.Unmarshal` into a `map[string]interface` target: the
document must be an object (the entries) or `null` (the map is left empty),
and every number among the decoded values must convert to `float64`. -/
def unmarshalMap (s : String) : Except JErr JFields :=
  match jsonParse s with
  | .error e => .error e
  | .ok (.jObj fs) =>
    match convNumFields fs with
    | some e => .error e
    | none => .ok fs
  | .ok .jNull => .ok .fnil
  | .ok v => .error (.cannotUnmarshal (jsonWhat v) "Go value of type map[string]interface \x7b\x7d")

/-- Decode a JSON number literal into a Go `int` (64-bit): the literal must be
an optionally signed run of digits (no fraction, no exponent) whose value fits
in 64 bits, or the decoder reports a type error naming the struct field. -/
def intOfLit (lit : String) (field : String) : Except JErr Int :=
  let err := JErr.cannotUnmarshal ("number " ++ lit)
    ("Go struct field ConfigGeneralSettings." ++ field ++ " of type int")
  let neg : Bool := lit.data.head? = some '-'
  let ds := if neg then lit.data.tail else lit.data
  if ds ≠ [] ∧ ds.all isDigitChar then
    let v : Int := if neg then -(digitsVal ds : Int) else (digitsVal ds : Int)
    if v < -(2 ^ 63) ∨ 2 ^ 63 - 1 < v then .error err else .ok v
  else .error err

/-- Decode into a `*bool` struct field: `null` clears it, a boolean sets it. -/
def decodeOptBool (field : String) : JValue → Except JErr (Option Bool)
  | .jNull => .ok none
  | .jBool b => .ok (some b)
  | v => .error (.cannotUnmarshal (jsonWhat v)
      ("Go struct field ConfigGeneralSettings." ++ field ++ " of type bool"))

/-- Decode into a `*string` struct field. -/
def decodeOptString (field : String) : JValue → Except JErr (Option String)
  | .jNull => .ok none
  | .jStr s => .ok (some s)
  | v => .error (.cannotUnmarshal (jsonWhat v)
      ("Go struct field ConfigGeneralSettings." ++ field ++ " of type string"))

/-- Decode into a `*int` struct field. -/
def decodeOptInt (field : String) : JValue → Except JErr (Option Int)
  | .jNull => .ok none
  | .jNum lit =>
    (match intOfLit lit field with
    | .ok n => .ok (some n)
    | .error e => .error e)
  | v => .error (.cannotUnmarshal (jsonWhat v)
      ("Go struct field ConfigGeneralSettings." ++ field ++ " of type int"))

/-- ASCII lower-casing of one character (Go's decoder folds field names
ASCII-case-insensitively). -/
def lowerChar (c : Char) : Char :=
  if 65 ≤ c.toNat ∧ c.toNat ≤ 90 then Char.ofNat (c.toNat + 32) else c

/-- ASCII-case-fold a field name. -/
def foldName (s : String) : String := String.mk (s.data.map lowerChar)

/-- Whether the JSON key `k` selects the struct field tagged `name` (Go
matches the tag exactly, or else case-insensitively). -/
def fieldMatch (k name : String) : Bool := k = name || foldName k = foldName name

/-- Apply one decoded object member to the struct, as Go's decoder does:
find the field whose JSON tag matches the key (unknown keys are ignored) and
decode the value into it. -/
def setCfgField (c : ConfigGeneralSettings) (k : String) (v : JValue) :
    Except JErr ConfigGeneralSettings :=
  if fieldMatch k "allowLan" then
    (decodeOptBool "allowLan" v).map fun x => { c with AllowLan := x }
  else if fieldMatch k "bindAddress" then
    (decodeOptString "bindAddress" v).map fun x => { c with BindAddress := x }
  else if fieldMatch k "logLevel" then
    (decodeOptString "logLevel" v).map fun x => { c with LogLevel := x }
  else if fieldMatch k "port" then
    (decodeOptInt "port" v).map fun x => { c with Port := x }
  else if fieldMatch k "socksPort" then
    (decodeOptInt "socksPort" v).map fun x => { c with SocksPort := x }
  else if fieldMatch k "mixedPort" then
    (decodeOptInt "mixedPort" v).map fun x => { c with MixedPort := x }
  else if fieldMatch k "redirPort" then
    (decodeOptInt "redirPort" v).map fun x => { c with RedirPort := x }
  else if fieldMatch k "tproxyPort" then
    (decodeOptInt "tproxyPort" v).map fun x => { c with TProxyPort := x }
  else .ok c

/-- Apply an object's members to the struct, left to right, stopping at the
first decode error. -/
def decodeCfgFields (c : ConfigGeneralSettings) : JFields → Except JErr ConfigGeneralSettings
  | .fnil => .ok c
  | .fcons k v tl =>
    match setCfgField c k v with
    | .error e => .error e
    | .ok c2 => decodeCfgFields c2 tl

/-- Decode a parsed document into a fresh `ConfigGeneralSettings` (the target
`patchGeneralConfig` passes is a zero-valued struct): `null` leaves it zero,
an object is applied member by member, anything else is a type error. -/
def decodeCfg : JValue → Except JErr ConfigGeneralSettings
  | .jNull => .ok {}
  | .jObj fs => decodeCfgFields {} fs
  | v => .error (.cannotUnmarshal (jsonWhat v) "Go value of type bridge.ConfigGeneralSettings")

/-- The modelled `json.Unmarshal` into a `*ConfigGeneralSettings` target. -/
def unmarshalCfg (s : String) : Except JErr ConfigGeneralSettings :=
  match jsonParse s with
  | .error e => .error e
  | .ok v => decodeCfg v

/-! ### The remaining dispatch functions of `exports.go` -/

/-- `patchGeneralConfig` (exports.go 92–126): unmarshals the patch into a
`ConfigGeneralSettings`; on failure it sends the failure envelope with the
error text and returns, on success it sends the bare success envelope (the
four per-field apply blocks contain only commented-out setter calls). -/
def patchGeneralConfig (port : Int) (patchStr : String) : CallTrace :=
  match unmarshalCfg patchStr with
  | .error err => SendResponseToPort port { Success := false, Message := err.render }
  | .ok _general => SendResponseToPort port { Success := true }

/-- `getRemoteConfig` (exports.go 135–160): builds the hard-coded
`map[string]interface` remote description around the given name, marshals
it, and sends the corresponding envelope.  No validation of `name`. -/
def getRemoteConfig (port : Int) (remoteName : String) : CallTrace :=
  let remoteConfig : GoValue :=
    .gMapSI (.gfcons "name" (.gString remoteName)
      (.gfcons "type" (.gString "s3")
        (.gfcons "url" (.gString "https://example.com") .gfnil)))
  match jsonMarshal remoteConfig with
  | .error err => SendResponseToPort port { Success := false, Message := err }
  | .ok data => SendResponseToPort port { Success := true, Data := data }

/-- `updateRemoteConfig` (exports.go 169–199): unmarshals the configuration
into a `map[string]interface` value; on failure it sends the failure envelope
and returns; on success its loop over the entries only suppresses unused
variable warnings, then it sends the bare success envelope. -/
def updateRemoteConfig (port : Int) (_remoteName configData : String) : CallTrace :=
  match unmarshalMap configData with
  | .error err => SendResponseToPort port { Success := false, Message := err.render }
  | .ok _remoteConfig => SendResponseToPort port { Success := true }

/-- `deleteRemote` (exports.go 208–224): the deletion logic is entirely
commented out (`TODO`); the function ignores its name argument and sends the
bare success envelope. -/
def deleteRemote (port : Int) (_remoteName : String) : CallTrace :=
  SendResponseToPort port { Success := true }

/-! ### The dispatch functions of `QUICK_REFERENCE.go` -/

/-- `getSimpleData` (QUICK_REFERENCE.go 31–53): marshals the hard-coded
two-entry map and sends the corresponding envelope. -/
def getSimpleData (port : Int) : CallTrace :=
  let result : GoValue :=
    .gMapSI (.gfcons "key" (.gString "value") (.gfcons "count" (.gInt 42) .gfnil))
  match jsonMarshal result with
  | .error err => SendResponseToPort port { Success := false, Message := err }
  | .ok data => SendResponseToPort port { Success := true, Data := data }

/-- `updateSimpleData` (QUICK_REFERENCE.go 60–86): unmarshals the input into
a `map[string]interface` value; failure sends the failure envelope, success
(after a no-op loop over the entries) the bare success envelope. -/
def updateSimpleData (port : Int) (jsonInput : String) : CallTrace :=
  match unmarshalMap jsonInput with
  | .error err => SendResponseToPort port { Success := false, Message := err.render }
  | .ok _config => SendResponseToPort port { Success := true }

/-- `getDataByName` (QUICK_REFERENCE.go 93–126): rejects an empty name with a
validation failure envelope before any other work; otherwise marshals the
hard-coded result map around the name and sends the corresponding envelope. -/
def getDataByName (port : Int) (name : String) : CallTrace :=
  if name = "" then
    SendResponseToPort port { Success := false, Message := "name parameter cannot be empty" }
  else
    let result : GoValue :=
      .gMapSI (.gfcons "name" (.gString name)
        (.gfcons "data" (.gString ("result for " ++ name)) .gfnil))
    match jsonMarshal result with
    | .error err => SendResponseToPort port { Success := false, Message := err }
    | .ok data => SendResponseToPort port { Success := true, Data := data }

/-- `processData` (QUICK_REFERENCE.go 133–153): rejects an empty source or
destination with a validation failure envelope; otherwise sends the bare
success envelope (the business logic is a comment). -/
def processData (port : Int) (source destination : String) : CallTrace :=
  if source = "" ∨ destination = "" then
    SendResponseToPort port { Success := false, Message := "source and destination cannot be empty" }
  else SendResponseToPort port { Success := true }

/-- `deleteItem` (QUICK_REFERENCE.go 160–179): rejects an empty item id with
a validation failure envelope; otherwise sends the bare success envelope
(the deletion logic is a comment). -/
def deleteItem (port : Int) (itemID : String) : CallTrace :=
  if itemID = "" then
    SendResponseToPort port { Success := false, Message := "itemID cannot be empty" }
  else SendResponseToPort port { Success := true }

/-! ### Auxiliary predicates for the theorems -/

/-- The envelope-field exclusivity check: a successful envelope carries no
message, a failed one carries no data. -/
def envelopeExclusive (r : DartResponse) : Bool :=
  if r.Success then r.Message == "" else r.Data == ""

/-- Whether every envelope a trace sends satisfies the exclusivity check. -/
def traceExclusive (t : CallTrace) : Bool :=
  t.sent.all fun pr => envelopeExclusive pr.2

/-- Whether an `Int` fits Go's 64-bit `int`. -/
def intInRange (n : Int) : Prop := -(2 ^ 63) ≤ n ∧ n ≤ 2 ^ 63 - 1

/-- `intInRange` lifted to an optional field value. -/
def optIntInRange : Option Int → Prop
  | none => True
  | some n => intInRange n

/-- Whether every `int` field of the struct holds a value representable in
Go's 64-bit `int` (in Go this is enforced by the field's type). -/
def CfgInRange (c : ConfigGeneralSettings) : Prop :=
  optIntInRange c.Port ∧ optIntInRange c.SocksPort ∧ optIntInRange c.MixedPort ∧
    optIntInRange c.RedirPort ∧ optIntInRange c.TProxyPort

/-- The JSON values the bridge's encoder places in an object member: a
boolean, a string, or an integer literal. -/
inductive EncScalar : JValue → Prop where
  | bool (b : Bool) : EncScalar (.jBool b)
  | str (s : String) : EncScalar (.jStr s)
  | int (i : Int) : EncScalar (.jNum (intLit i))

/-- Every member value of the field list is an encoder scalar. -/
inductive EncFields : JFields → Prop where
  | nil : EncFields .fnil
  | cons (k : String) (v : JValue) (tl : JFields) :
      EncScalar v → EncFields tl → EncFields (.fcons k v tl)

/-- The number of members of a field list. -/
def flen : JFields → Nat
  | .fnil => 0
  | .fcons _ _ tl => flen tl + 1

/-- One struct field at the JSON level: present pointers contribute a tagged
member, absent ones nothing. -/
def optEntryJ (name : String) (f : α → JValue) : Option α → JFields → JFields
  | some v, tl => .fcons name (f v) tl
  | none, tl => tl

/-- The JSON object members `json.Marshal` produces for a
`ConfigGeneralSettings` value: the tagged present fields in declaration
order. -/
def cfgFieldsJ (c : ConfigGeneralSettings) : JFields :=
  optEntryJ "allowLan" .jBool c.AllowLan
    (optEntryJ "bindAddress" .jStr c.BindAddress
      (optEntryJ "logLevel" .jStr c.LogLevel
        (optEntryJ "port" (fun n => .jNum (intLit n)) c.Port
          (optEntryJ "socksPort" (fun n => .jNum (intLit n)) c.SocksPort
            (optEntryJ "mixedPort" (fun n => .jNum (intLit n)) c.MixedPort
              (optEntryJ "redirPort" (fun n => .jNum (intLit n)) c.RedirPort
                (optEntryJ "tproxyPort" (fun n => .jNum (intLit n)) c.TProxyPort .fnil)))))))

/-- What may follow a number literal without extending it: nothing, or a
character that is not a digit and not `.`/`e`/`E`. -/
def numFollow : List Char → Prop
  | [] => True
  | c :: _ => isDigitChar c = false ∧ c ≠ '.' ∧ c ≠ 'e' ∧ c ≠ 'E'

/-- What follows a member's value inside a serialized object: a comma or the
closing brace. -/
def memFollow (cs : List Char) : Prop := (∃ r, cs = ',' :: r) ∨ (∃ r, cs = '}' :: r)

/-! ### Helper lemmas -/

lemma JErr.render_length_pos (e : JErr) : 0 < e.render.length := by
  cases e with
  | unexpectedEnd => decide
  | invalidChar c ctx =>
    have h18 : ("invalid character ").length = 18 := by decide
    simp only [JErr.render, String.length_append, h18]
    omega
  | cannotUnmarshal what target =>
    have h23 : ("json: cannot unmarshal ").length = 23 := by decide
    simp only [JErr.render, String.length_append, h23]
    omega

lemma JErr.render_ne_empty (e : JErr) : e.render ≠ "" := by
  intro h
  have := e.render_length_pos
  rw [h] at this
  simp at this

/-! ### Claim theorems: the dispatch protocol -/

/-- C1: every dispatch function of `exports.go` (`getGeneralConfig`,
`patchGeneralConfig`, `getRemoteConfig`, `updateRemoteConfig`,
`deleteRemote`) performs exactly one `SendResponseToPort` on every input and
every control-flow path — never zero, never two. -/
theorem exports_sendExactlyOnce :
    (∀ port : Int, (getGeneralConfig port).sent.length = 1) ∧
    (∀ (port : Int) (patchStr : String), (patchGeneralConfig port patchStr).sent.length = 1) ∧
    (∀ (port : Int) (remoteName : String), (getRemoteConfig port remoteName).sent.length = 1) ∧
    (∀ (port : Int) (remoteName configData : String),
      (updateRemoteConfig port remoteName configData).sent.length = 1) ∧
    (∀ (port : Int) (remoteName : String), (deleteRemote port remoteName).sent.length = 1) := by
  refine ⟨fun port => rfl, fun port s => ?_, fun port n => rfl, fun port n s => ?_,
    fun port n => rfl⟩
  · unfold patchGeneralConfig
    split <;> rfl
  · unfold updateRemoteConfig
    split <;> rfl

/-- C2 counterexample: `deleteRemote(token=3, name="")` does not produce the
envelope `(success:false, message:"itemID cannot be empty", data:"")`; it
produces the success envelope (the function performs no validation). -/
theorem deleteRemote_emptyName_cex :
    deleteRemote 3 "" = ⟨[(3, { Success := true })], []⟩ ∧
    deleteRemote 3 "" ≠
      ⟨[(3, { Success := false, Message := "itemID cannot be empty", Data := "" })], []⟩ := by
  exact ⟨rfl, by decide⟩

/-- C2 (amended): the dispatch function carrying that validation is
`deleteItem` of `QUICK_REFERENCE.go`: with an empty item id it sends exactly
the envelope `(success:false, message:"itemID cannot be empty", data:"")` and
invokes no engine operation, while `deleteRemote` of `exports.go` sends the
bare success envelope for the empty name. -/
theorem deleteItem_emptyId_validates :
    deleteItem 3 "" =
      ⟨[(3, { Success := false, Message := "itemID cannot be empty", Data := "" })], []⟩ ∧
    deleteRemote 3 "" = ⟨[(3, { Success := true, Message := "", Data := "" })], []⟩ :=
  ⟨rfl, rfl⟩

/-- C3 counterexample: `getRemoteConfig` with the empty remote name does not
send a failure envelope — it sends a success envelope carrying the marshalled
remote description, so the claimed universal validation fails at
`getRemoteConfig(port=1, name="")`. -/
theorem getRemoteConfig_emptyName_cex :
    getRemoteConfig 1 "" =
      ⟨[(1, { Success := true,
              Data := "\x7b\"name\":\"\",\"type\":\"s3\",\"url\":\"https://example.com\"\x7d" })],
        []⟩ ∧
    (getRemoteConfig 1 "").sent.all (fun pr => pr.2.Success = false) = false := by
  constructor
  · decide
  · decide

/-- C3 (amended): of the dispatch functions taking a required string
argument, `getDataByName`, `processData` and `deleteItem` reject the empty
string with a validation-failure envelope and invoke no engine operation,
while `getRemoteConfig` and `deleteRemote` perform no validation and send
success envelopes even for the empty string. -/
theorem emptyString_validation :
    (∀ port : Int, getDataByName port "" =
      ⟨[(port, { Success := false, Message := "name parameter cannot be empty" })], []⟩) ∧
    (∀ (port : Int) (dst : String), processData port "" dst =
      ⟨[(port, { Success := false, Message := "source and destination cannot be empty" })], []⟩) ∧
    (∀ (port : Int) (src : String), processData port src "" =
      ⟨[(port, { Success := false, Message := "source and destination cannot be empty" })], []⟩) ∧
    (∀ port : Int, deleteItem port "" =
      ⟨[(port, { Success := false, Message := "itemID cannot be empty" })], []⟩) ∧
    (∀ port : Int, (getRemoteConfig port "").sent.all (fun pr => pr.2.Success) = true) ∧
    (∀ port : Int, (deleteRemote port "").sent.all (fun pr => pr.2.Success) = true) := by
  refine ⟨fun port => rfl, fun port dst => ?_, fun port src => ?_, fun port => rfl,
    fun port => rfl, fun port => rfl⟩
  · unfold processData
    rw [if_pos (Or.inl rfl)]
    rfl
  · unfold processData
    rw [if_pos (Or.inr rfl)]
    rfl

/-- C5: `getGeneralConfig` with any token sends exactly the success envelope
whose data is the JSON serialization of the hard-coded general
configuration. -/
theorem getGeneralConfig_envelope :
    ∀ token : Int, getGeneralConfig token =
      ⟨[(token, { Success := true, Message := "",
                  Data := "\x7b\"allowLan\":true,\"bindAddress\":\"0.0.0.0\",\"port\":8080\x7d" })],
        []⟩ :=
  fun _ => rfl

/-- C8: every envelope produced by any of the ten dispatch functions on any
input satisfies the exclusivity invariant: a successful envelope has an empty
message, a failed one has empty data. -/
theorem envelopes_exclusive :
    (∀ port : Int, traceExclusive (getGeneralConfig port) = true) ∧
    (∀ (port : Int) (s : String), traceExclusive (patchGeneralConfig port s) = true) ∧
    (∀ (port : Int) (n : String), traceExclusive (getRemoteConfig port n) = true) ∧
    (∀ (port : Int) (n s : String), traceExclusive (updateRemoteConfig port n s) = true) ∧
    (∀ (port : Int) (n : String), traceExclusive (deleteRemote port n) = true) ∧
    (∀ port : Int, traceExclusive (getSimpleData port) = true) ∧
    (∀ (port : Int) (s : String), traceExclusive (updateSimpleData port s) = true) ∧
    (∀ (port : Int) (n : String), traceExclusive (getDataByName port n) = true) ∧
    (∀ (port : Int) (src dst : String), traceExclusive (processData port src dst) = true) ∧
    (∀ (port : Int) (i : String), traceExclusive (deleteItem port i) = true) := by
  refine ⟨fun port => rfl, fun port s => ?_, fun port n => rfl, fun port n s => ?_,
    fun port n => rfl, fun port => rfl, fun port s => ?_, fun port n => ?_,
    fun port src dst => ?_, fun port i => ?_⟩
  · unfold patchGeneralConfig
    split <;> rfl
  · unfold updateRemoteConfig
    split <;> rfl
  · unfold updateSimpleData
    split <;> rfl
  · unfold getDataByName
    split
    · rfl
    · rfl
  · unfold processData
    split <;> rfl
  · unfold deleteItem
    split <;> rfl

/-- C10: `deleteRemote` of `exports.go` sends, for every port and every name
(the empty string included), exactly the bare success envelope, with no
validation and no engine operation. -/
theorem deleteRemote_alwaysSuccess :
    ∀ (port : Int) (name : String),
      deleteRemote port name = ⟨[(port, { Success := true, Message := "", Data := "" })], []⟩ :=
  fun _ _ => rfl

/-- C4: for each JSON-accepting dispatch function (`patchGeneralConfig`,
`updateRemoteConfig`, `updateSimpleData`), whenever the decode of the opaque
string argument fails, the envelope sent has `success = false`, the decode
error's text as its (non-empty) message, and empty data. -/
theorem malformedJson_failureEnvelope :
    (∀ (port : Int) (s : String) (e : JErr), unmarshalCfg s = .error e →
      patchGeneralConfig port s =
        ⟨[(port, { Success := false, Message := e.render, Data := "" })], []⟩ ∧
      e.render ≠ "") ∧
    (∀ (port : Int) (name s : String) (e : JErr), unmarshalMap s = .error e →
      updateRemoteConfig port name s =
        ⟨[(port, { Success := false, Message := e.render, Data := "" })], []⟩ ∧
      e.render ≠ "") ∧
    (∀ (port : Int) (s : String) (e : JErr), unmarshalMap s = .error e →
      updateSimpleData port s =
        ⟨[(port, { Success := false, Message := e.render, Data := "" })], []⟩ ∧
      e.render ≠ "") := by
  refine ⟨fun port s e h => ⟨?_, JErr.render_ne_empty e⟩,
    fun port name s e h => ⟨?_, JErr.render_ne_empty e⟩,
    fun port s e h => ⟨?_, JErr.render_ne_empty e⟩⟩
  · unfold patchGeneralConfig
    rw [h]
    rfl
  · unfold updateRemoteConfig
    rw [h]
    rfl
  · unfold updateSimpleData
    rw [h]
    rfl

/-- C4 witness: the spec's scenario `updateRemoteConfig(token=9, name="s3box",
data="not-json")` yields the failure envelope carrying the decode error's
text (the scanner faults at the `o` while reading a `null` literal) with
empty data, and that text is non-empty. -/
theorem malformedJson_failureEnvelope_witness :
    updateRemoteConfig 9 "s3box" "not-json" =
      ⟨[(9, { Success := false,
              Message := "invalid character 'o' in literal null (expecting 'u')",
              Data := "" })], []⟩ ∧
    ("invalid character 'o' in literal null (expecting 'u')" : String) ≠ "" := by
  have h := malformedJson_failureEnvelope.2.1 9 "s3box" "not-json"
    (.invalidChar 'o' "in literal null (expecting 'u')") rfl
  exact h

/-- C6: for each dispatch function that decodes an opaque JSON string
argument, a decode failure makes the function send the failure envelope
carrying the decode error's message and return at once: no engine operation
is invoked, so no engine state is read or mutated. -/
theorem decodeFailure_noEngineWork :
    (∀ (port : Int) (s : String) (e : JErr), unmarshalCfg s = .error e →
      (patchGeneralConfig port s).engineOps = [] ∧
      (patchGeneralConfig port s).sent =
        [(port, { Success := false, Message := e.render })]) ∧
    (∀ (port : Int) (name s : String) (e : JErr), unmarshalMap s = .error e →
      (updateRemoteConfig port name s).engineOps = [] ∧
      (updateRemoteConfig port name s).sent =
        [(port, { Success := false, Message := e.render })]) ∧
    (∀ (port : Int) (s : String) (e : JErr), unmarshalMap s = .error e →
      (updateSimpleData port s).engineOps = [] ∧
      (updateSimpleData port s).sent =
        [(port, { Success := false, Message := e.render })]) := by
  refine ⟨fun port s e h => ?_, fun port name s e h => ?_, fun port s e h => ?_⟩
  · unfold patchGeneralConfig
    rw [h]
    exact ⟨rfl, rfl⟩
  · unfold updateRemoteConfig
    rw [h]
    exact ⟨rfl, rfl⟩
  · unfold updateSimpleData
    rw [h]
    exact ⟨rfl, rfl⟩

set_option exponentiation.threshold 1100 in
/-- C6 witness: `patchGeneralConfig(token=1, patch="x")` hits the decode
failure path, and so does `updateSimpleData(token=2, data="\x7b\"a\":1e999\x7d")`
through the `float64` range error: neither invokes any engine operation and
each sends exactly the failure envelope carrying the decode error's text. -/
theorem decodeFailure_noEngineWork_witness :
    ((patchGeneralConfig 1 "x").engineOps = [] ∧
     (patchGeneralConfig 1 "x").sent =
       [(1, { Success := false,
              Message := "invalid character 'x' looking for beginning of value" })]) ∧
    ((updateSimpleData 2 "\x7b\"a\":1e999\x7d").engineOps = [] ∧
     (updateSimpleData 2 "\x7b\"a\":1e999\x7d").sent =
       [(2, { Success := false,
              Message := "json: cannot unmarshal number 1e999 into Go value of type float64" })]) := by
  refine ⟨decodeFailure_noEngineWork.1 1 "x"
      (.invalidChar 'x' "looking for beginning of value") rfl,
    decodeFailure_noEngineWork.2.2 2 "\x7b\"a\":1e999\x7d"
      (.cannotUnmarshal "number 1e999" "Go value of type float64") rfl⟩

/-! ### Marshalling a `ConfigGeneralSettings` never fails -/

lemma marshalCfg_eq (c : ConfigGeneralSettings) :
    goMarshalJ (cfgToGo c) = .ok (.jObj (cfgFieldsJ c)) := by
  obtain ⟨a, bd, lg, p, sp, mp, rp, tp⟩ := c
  cases a <;> cases bd <;> cases lg <;> cases p <;> cases sp <;> cases mp <;>
    cases rp <;> cases tp <;> rfl

/-- C9: the failure branch of `getGeneralConfig` is unreachable: marshalling
any `ConfigGeneralSettings` value (via `cfgToGo`) always succeeds, so for
every token `getGeneralConfig` sends the success envelope and never the
failure one. -/
theorem getGeneralConfig_neverFails :
    (∀ c : ConfigGeneralSettings,
      jsonMarshal (cfgToGo c) = .ok (String.mk (serJ (.jObj (cfgFieldsJ c))))) ∧
    (∀ port : Int, getGeneralConfig port =
      ⟨[(port, { Success := true, Message := "",
                 Data := "\x7b\"allowLan\":true,\"bindAddress\":\"0.0.0.0\",\"port\":8080\x7d" })],
        []⟩) := by
  constructor
  · intro c
    unfold jsonMarshal
    rw [marshalCfg_eq c]
  · intro port
    rfl

/-! ### Decimal literal lemmas -/

lemma natDigitsLE_ofDigits : ∀ fuel n, n < fuel → Nat.ofDigits 10 (natDigitsLE fuel n) = n := by
  intro fuel
  induction fuel with
  | zero => intro n h; omega
  | succ f ih =>
    intro n h
    by_cases h0 : n = 0
    · simp [natDigitsLE, h0]
    · have hdiv : n / 10 < f := by omega
      simp only [natDigitsLE, h0, if_false, Nat.ofDigits_cons, ih (n / 10) hdiv]
      omega

lemma natDigitsLE_lt : ∀ fuel n, ∀ d ∈ natDigitsLE fuel n, d < 10 := by
  intro fuel
  induction fuel with
  | zero => intro n d hd; simp [natDigitsLE] at hd
  | succ f ih =>
    intro n d hd
    by_cases h0 : n = 0
    · simp [natDigitsLE, h0] at hd
    · simp only [natDigitsLE, h0, if_false, List.mem_cons] at hd
      rcases hd with hd | hd
      · omega
      · exact ih (n / 10) d hd

lemma natDigitsLE_last : ∀ fuel n, 0 < n → n < fuel →
    ∃ ds d, natDigitsLE fuel n = ds ++ [d] ∧ d ≠ 0 ∧ d < 10 := by
  intro fuel
  induction fuel with
  | zero => intro n h0 h; omega
  | succ f ih =>
    intro n h0 h
    by_cases hsmall : n < 10
    · refine ⟨[], n % 10, ?_, by omega, by omega⟩
      have hq : n / 10 = 0 := by omega
      cases f with
      | zero => omega
      | succ f2 => simp [natDigitsLE, hq, h0.ne.symm]
    · have hdiv0 : 0 < n / 10 := by omega
      have hdivf : n / 10 < f := by omega
      obtain ⟨ds, d, hds, hd0, hd10⟩ := ih (n / 10) hdiv0 hdivf
      exact ⟨n % 10 :: ds, d, by simp [natDigitsLE, h0.ne.symm, hds], hd0, hd10⟩

lemma digitChar_toNat {d : Nat} (h : d < 10) : (digitChar d).toNat = 48 + d := by
  interval_cases d <;> decide

lemma digitChar_isDigit {d : Nat} (h : d < 10) : isDigitChar (digitChar d) = true := by
  interval_cases d <;> decide

lemma digitChar_ne_zero {d : Nat} (h10 : d < 10) (h : d ≠ 0) : digitChar d ≠ '0' := by
  interval_cases d <;> simp_all <;> decide

lemma digitChar_not_special {d : Nat} (h : d < 10) :
    digitChar d ≠ 'n' ∧ digitChar d ≠ 't' ∧ digitChar d ≠ 'f' ∧ digitChar d ≠ '"' ∧
    digitChar d ≠ '\x7b' ∧ digitChar d ≠ '[' ∧ digitChar d ≠ '-' ∧
    isWsChar (digitChar d) = false := by
  interval_cases d <;> refine ⟨by decide, by decide, by decide, by decide, by decide,
    by decide, by decide, by decide⟩

lemma digitsVal_map_rev : ∀ ds : List Nat, (∀ d ∈ ds, d < 10) →
    digitsVal ((ds.map digitChar).reverse) = Nat.ofDigits 10 ds := by
  intro ds
  induction ds with
  | nil => intro _; simp [digitsVal, Nat.ofDigits_nil]
  | cons d tl ih =>
    intro h
    have hd : d < 10 := h d (List.mem_cons_self _ _)
    have htl := ih fun x hx => h x (List.mem_cons_of_mem _ hx)
    simp only [List.map_cons, List.reverse_cons, digitsVal, List.foldl_append,
      List.foldl_cons, List.foldl_nil]
    simp only [digitsVal] at htl
    rw [htl, digitChar_toNat hd, Nat.ofDigits_cons]
    omega

lemma natLitChars_digits (n : Nat) : ∀ c ∈ natLitChars n, isDigitChar c = true := by
  intro c hc
  by_cases h0 : n = 0
  · simp [natLitChars, h0] at hc
    subst hc
    decide
  · simp only [natLitChars, h0, if_false, List.mem_reverse, List.mem_map] at hc
    obtain ⟨d, hd, rfl⟩ := hc
    exact digitChar_isDigit (natDigitsLE_lt _ _ d hd)

lemma natLitChars_val (n : Nat) : digitsVal (natLitChars n) = n := by
  by_cases h0 : n = 0
  · simp [natLitChars, h0, digitsVal]
  · simp only [natLitChars, h0, if_false]
    rw [digitsVal_map_rev _ (natDigitsLE_lt _ _), natDigitsLE_ofDigits _ _ (Nat.lt_succ_self n)]

lemma natLitChars_head (n : Nat) (h : n ≠ 0) :
    ∃ d tl, natLitChars n = digitChar d :: tl ∧ d ≠ 0 ∧ d < 10 := by
  obtain ⟨ds, d, hds, hd0, hd10⟩ := natDigitsLE_last (n + 1) n (by omega) (Nat.lt_succ_self n)
  refine ⟨d, (ds.map digitChar).reverse, ?_, hd0, hd10⟩
  simp [natLitChars, h, hds]

lemma takeDigits_split : ∀ ds rest, (∀ c ∈ ds, isDigitChar c = true) → numFollow rest →
    takeDigits (ds ++ rest) = (ds, rest) := by
  intro ds
  induction ds with
  | nil =>
    intro rest _ hr
    cases rest with
    | nil => rfl
    | cons c r =>
      obtain ⟨hc, -⟩ := hr
      simp [takeDigits, hc]
  | cons c tl ih =>
    intro rest h hr
    have hc : isDigitChar c = true := h c (List.mem_cons_self _ _)
    have := ih rest (fun x hx => h x (List.mem_cons_of_mem _ hx)) hr
    simp [takeDigits, hc, this]

lemma parseFrac_skip (cs : List Char) (h : numFollow cs) : parseFrac cs = .ok ([], cs) := by
  cases cs with
  | nil => rfl
  | cons c r =>
    obtain ⟨-, hdot, -, -⟩ := h
    simp [parseFrac, hdot]

lemma parseExp_skip (cs : List Char) (h : numFollow cs) : parseExp cs = .ok ([], cs) := by
  cases cs with
  | nil => rfl
  | cons c r =>
    obtain ⟨-, -, he, hE⟩ := h
    simp only [parseExp]
    rw [if_neg (by simp [he, hE])]

lemma memFollow_numFollow (cs : List Char) (h : memFollow cs) : numFollow cs := by
  rcases h with ⟨r, rfl⟩ | ⟨r, rfl⟩ <;> exact ⟨by decide, by decide, by decide, by decide⟩

lemma parseNum_natPart (n : Nat) (rest : List Char) (hr : numFollow rest) :
    parseNum (natLitChars n ++ rest) = .ok (String.mk (natLitChars n), rest) := by
  by_cases h0 : n = 0
  · subst h0
    rw [show natLitChars 0 = ['0'] from rfl]
    simp only [List.cons_append, List.nil_append, parseNum]
    rw [if_neg (by decide : ¬ ('0' : Char) = '-')]
    simp [(by decide : isDigitChar '0' = true), parseFrac_skip rest hr,
      parseExp_skip rest hr]
  · obtain ⟨d, tl, htl, hd0, hd10⟩ := natLitChars_head n h0
    have htld : ∀ c ∈ tl, isDigitChar c = true := by
      intro c hc
      exact natLitChars_digits n c (by rw [htl]; exact List.mem_cons_of_mem _ hc)
    have hdig : isDigitChar (digitChar d) = true := digitChar_isDigit hd10
    have hne0 : digitChar d ≠ '0' := digitChar_ne_zero hd10 hd0
    have hnem : digitChar d ≠ '-' := (digitChar_not_special hd10).2.2.2.2.2.2.1
    rw [htl]
    simp only [List.cons_append, parseNum]
    rw [if_neg hnem]
    simp [hdig, hne0, takeDigits_split tl rest htld hr, parseFrac_skip rest hr,
      parseExp_skip rest hr]

lemma parseNum_negPart (n : Nat) (rest : List Char) (hr : numFollow rest) :
    parseNum ('-' :: (natLitChars n ++ rest)) =
      .ok (String.mk ('-' :: natLitChars n), rest) := by
  by_cases h0 : n = 0
  · subst h0
    rw [show natLitChars 0 = ['0'] from rfl]
    simp only [List.cons_append, List.nil_append, parseNum]
    simp [(by decide : isDigitChar '0' = true), parseFrac_skip rest hr, parseExp_skip rest hr]
  · obtain ⟨d, tl, htl, hd0, hd10⟩ := natLitChars_head n h0
    have htld : ∀ c ∈ tl, isDigitChar c = true := by
      intro c hc
      exact natLitChars_digits n c (by rw [htl]; exact List.mem_cons_of_mem _ hc)
    have hdig : isDigitChar (digitChar d) = true := digitChar_isDigit hd10
    have hne0 : digitChar d ≠ '0' := digitChar_ne_zero hd10 hd0
    rw [htl]
    simp only [List.cons_append, parseNum]
    simp [hdig, hne0, takeDigits_split tl rest htld hr, parseFrac_skip rest hr,
      parseExp_skip rest hr]

lemma parseNum_intLit (i : Int) (rest : List Char) (hr : numFollow rest) :
    parseNum (intLitChars i ++ rest) = .ok (intLit i, rest) := by
  by_cases hneg : i < 0
  · have harg : intLitChars i ++ rest = '-' :: (natLitChars i.natAbs ++ rest) := by
      simp [intLitChars, hneg]
    rw [harg, parseNum_negPart _ _ hr]
    simp [intLit, intLitChars, hneg]
  · have harg : intLitChars i ++ rest = natLitChars i.natAbs ++ rest := by
      simp [intLitChars, hneg]
    rw [harg, parseNum_natPart _ _ hr]
    simp [intLit, intLitChars, hneg]

lemma hexVal_hexChar {d : Nat} (h : d < 16) : hexVal (hexChar d) = some d := by
  interval_cases d <;> decide

set_option maxHeartbeats 1000000

lemma parseStrBody_escStep (fuel : Nat) (acc : List Char) (c : Char) (rest : List Char) :
    parseStrBody (fuel + 1) acc (goEscapeChar c ++ rest) = parseStrBody fuel (c :: acc) rest := by
  by_cases h1 : c = '"'
  · subst h1; simp [goEscapeChar, parseStrBody, simpleEscape]
  by_cases h2 : c = '\\'
  · subst h2; simp [goEscapeChar, parseStrBody, simpleEscape]
  by_cases h3 : c = '\n'
  · subst h3; simp [goEscapeChar, parseStrBody, simpleEscape]
  by_cases h4 : c = '\r'
  · subst h4; simp [goEscapeChar, parseStrBody, simpleEscape]
  by_cases h5 : c = '\t'
  · subst h5; simp [goEscapeChar, parseStrBody, simpleEscape]
  by_cases h6 : c = '<'
  · subst h6; simp [goEscapeChar, parseStrBody, hex4, hexVal]
  by_cases h7 : c = '>'
  · subst h7; simp [goEscapeChar, parseStrBody, hex4, hexVal]
  by_cases h8 : c = '&'
  · subst h8; simp [goEscapeChar, parseStrBody, hex4, hexVal]
  by_cases h9 : c.toNat < 32
  · have hhi : c.toNat / 16 < 16 := by omega
    have hlo : c.toNat % 16 < 16 := by omega
    have key : ((0 * 16 + 0) * 16 + c.toNat / 16) * 16 + c.toNat % 16 = c.toNat := by omega
    have harg : goEscapeChar c ++ rest =
        '\\' :: 'u' :: '0' :: '0' :: hexChar (c.toNat / 16) :: hexChar (c.toNat % 16) :: rest := by
      simp [goEscapeChar, h1, h2, h3, h4, h5, h6, h7, h8, h9]
    rw [harg]
    simp only [parseStrBody, hex4, (by decide : hexVal '0' = some 0),
      hexVal_hexChar hhi, hexVal_hexChar hlo, key]
    simp only [if_true]
    rw [if_neg (by omega : ¬ (55296 ≤ c.toNat ∧ c.toNat ≤ 57343)), Char.ofNat_toNat,
      if_neg (by decide : ¬ ('\\' : Char) = '"')]
  by_cases h10 : c.toNat = 0x2028
  · have hc : Char.ofNat 0x2028 = c := by rw [← h10]; exact Char.ofNat_toNat c
    have harg : goEscapeChar c ++ rest = '\\' :: 'u' :: '2' :: '0' :: '2' :: '8' :: rest := by
      simp [goEscapeChar, h1, h2, h3, h4, h5, h6, h7, h8, h9, h10]
    rw [harg]
    simp [parseStrBody, hex4, hexVal]
    rw [hc]
  by_cases h11 : c.toNat = 0x2029
  · have hc : Char.ofNat 0x2029 = c := by rw [← h11]; exact Char.ofNat_toNat c
    have harg : goEscapeChar c ++ rest = '\\' :: 'u' :: '2' :: '0' :: '2' :: '9' :: rest := by
      simp [goEscapeChar, h1, h2, h3, h4, h5, h6, h7, h8, h9, h10, h11]
    rw [harg]
    simp [parseStrBody, hex4, hexVal]
    rw [hc]
  · have harg : goEscapeChar c ++ rest = c :: rest := by
      simp [goEscapeChar, h1, h2, h3, h4, h5, h6, h7, h8, h9, h10, h11]
    rw [harg]
    simp [parseStrBody, h1, h2, h9]

lemma goEscapeChar_length_pos (c : Char) : 1 ≤ (goEscapeChar c).length := by
  by_cases h1 : c = '"'
  · simp [goEscapeChar, h1]
  by_cases h2 : c = '\\'
  · simp [goEscapeChar, h1, h2]
  by_cases h3 : c = '\n'
  · simp [goEscapeChar, h1, h2, h3]
  by_cases h4 : c = '\r'
  · simp [goEscapeChar, h1, h2, h3, h4]
  by_cases h5 : c = '\t'
  · simp [goEscapeChar, h1, h2, h3, h4, h5]
  by_cases h6 : c = '<'
  · simp [goEscapeChar, h1, h2, h3, h4, h5, h6]
  by_cases h7 : c = '>'
  · simp [goEscapeChar, h1, h2, h3, h4, h5, h6, h7]
  by_cases h8 : c = '&'
  · simp [goEscapeChar, h1, h2, h3, h4, h5, h6, h7, h8]
  by_cases h9 : c.toNat < 32
  · simp [goEscapeChar, h1, h2, h3, h4, h5, h6, h7, h8, h9]
  by_cases h10 : c.toNat = 0x2028
  · simp [goEscapeChar, h1, h2, h3, h4, h5, h6, h7, h8, h9, h10]
  by_cases h11 : c.toNat = 0x2029
  · simp [goEscapeChar, h1, h2, h3, h4, h5, h6, h7, h8, h9, h10, h11]
  · simp [goEscapeChar, h1, h2, h3, h4, h5, h6, h7, h8, h9, h10, h11]

lemma length_le_flatMap (cs : List Char) : cs.length ≤ (cs.flatMap goEscapeChar).length := by
  induction cs with
  | nil => simp
  | cons c tl ih =>
    simp only [List.flatMap_cons, List.length_append, List.length_cons]
    have := goEscapeChar_length_pos c
    omega

lemma parseStrBody_flat : ∀ (cs : List Char) (fuel : Nat) (acc rest : List Char),
    cs.length + 1 ≤ fuel →
    parseStrBody fuel acc (cs.flatMap goEscapeChar ++ '"' :: rest) =
      .ok (String.mk (acc.reverse ++ cs), rest) := by
  intro cs
  induction cs with
  | nil =>
    intro fuel acc rest hf
    cases fuel with
    | zero => omega
    | succ f => simp [parseStrBody]
  | cons c tl ih =>
    intro fuel acc rest hf
    cases fuel with
    | zero => simp at hf
    | succ f =>
      rw [List.flatMap_cons, List.append_assoc, parseStrBody_escStep,
        ih f (c :: acc) rest (by simp at hf; omega)]
      simp

lemma parseStrBody_quoted (s : String) (tail : List Char) :
    parseStrBody ((s.data.flatMap goEscapeChar ++ '"' :: tail).length + 1) []
      (s.data.flatMap goEscapeChar ++ '"' :: tail) = .ok (s, tail) := by
  have hfm := length_le_flatMap s.data
  have hlen : s.data.length + 1 ≤ (s.data.flatMap goEscapeChar ++ '"' :: tail).length + 1 := by
    simp only [List.length_append, List.length_cons]
    omega
  rw [parseStrBody_flat s.data _ [] tail hlen]
  simp

lemma skipWs_cons (c : Char) (r : List Char) (h : isWsChar c = false) :
    skipWs (c :: r) = c :: r := by
  simp [skipWs, h]

lemma natLitChars_cons (n : Nat) : ∃ d tl, natLitChars n = digitChar d :: tl ∧ d < 10 := by
  by_cases h0 : n = 0
  · exact ⟨0, [], by simp [natLitChars, h0]; rfl, by omega⟩
  · obtain ⟨d, tl, h, _, hd⟩ := natLitChars_head n h0
    exact ⟨d, tl, h, hd⟩

lemma parseVal_scalar (v : JValue) (hv : EncScalar v) (fuel depth : Nat) (rest : List Char)
    (hr : memFollow rest) :
    parseVal (fuel + 1) depth (serJ v ++ rest) = .ok (v, rest) := by
  cases hv with
  | bool b => cases b <;> simp [serJ, parseVal, skipWs, isWsChar, scanLit]
  | str s =>
    have harg : serJ (.jStr s) ++ rest = '"' :: (s.data.flatMap goEscapeChar ++ '"' :: rest) := by
      simp [serJ, quoteChars]
    rw [harg]
    simp only [parseVal, skipWs_cons _ _ (by decide : isWsChar '"' = false),
      (by decide : ¬ ('"' : Char) = 'n'), (by decide : ¬ ('"' : Char) = 't'),
      (by decide : ¬ ('"' : Char) = 'f'), if_false, ite_false]
    simp only [if_true]
    rw [parseStrBody_quoted]
  | int i =>
    have hnum := parseNum_intLit i rest (memFollow_numFollow rest hr)
    have hdata : serJ (.jNum (intLit i)) = intLitChars i := rfl
    rw [hdata]
    by_cases hneg : i < 0
    · have harg : intLitChars i ++ rest = '-' :: (natLitChars i.natAbs ++ rest) := by
        simp [intLitChars, hneg]
      rw [harg]
      simp only [parseVal, skipWs_cons _ _ (by decide : isWsChar '-' = false),
        (by decide : ¬ ('-' : Char) = 'n'), (by decide : ¬ ('-' : Char) = 't'),
        (by decide : ¬ ('-' : Char) = 'f'), (by decide : ¬ ('-' : Char) = '"'),
        (by decide : ¬ ('-' : Char) = '\x7b'), (by decide : ¬ ('-' : Char) = '['),
        if_false, ite_false]
      simp only [true_or, if_true]
      rw [show '-' :: (natLitChars i.natAbs ++ rest) = intLitChars i ++ rest from harg.symm, hnum]
    · obtain ⟨d, tl, htl, hd10⟩ := natLitChars_cons i.natAbs
      obtain ⟨hn, ht, hf, hq, hob, hoa, hm, hws⟩ := digitChar_not_special hd10
      have hdig := digitChar_isDigit hd10
      have harg : intLitChars i ++ rest = digitChar d :: (tl ++ rest) := by
        simp [intLitChars, hneg, htl]
      rw [harg]
      simp only [parseVal, skipWs_cons _ _ hws, hn, ht, hf, hq, hob, hoa,
        if_false, ite_false]
      rw [if_pos (Or.inr hdig),
        show digitChar d :: (tl ++ rest) = intLitChars i ++ rest from harg.symm, hnum]

lemma parseMembers_rt (fs : JFields) (hfs : EncFields fs) : ∀ (_hne : fs ≠ .fnil)
    (fuel depth : Nat) (rest : List Char), flen fs + 1 ≤ fuel →
    parseMembers fuel depth (serFields fs ++ '}' :: rest) = .ok (fs, rest) := by
  induction hfs with
  | nil => intro hne; exact absurd rfl hne
  | cons k v tl hv htl ih =>
    intro _ fuel depth rest hfuel
    have hfuel2 : flen tl + 2 ≤ fuel := by
      simp only [flen] at hfuel
      omega
    obtain ⟨f, rfl⟩ : ∃ f, fuel = f + 2 := ⟨fuel - 2, by omega⟩
    cases tl with
    | fnil =>
      have harg : serFields (.fcons k v .fnil) ++ '}' :: rest =
          '"' :: (k.data.flatMap goEscapeChar ++ '"' :: (':' :: (serJ v ++ '}' :: rest))) := by
        simp [serFields, quoteChars]
      have hval := parseVal_scalar v hv f depth ('}' :: rest) (Or.inr ⟨rest, rfl⟩)
      rw [harg]
      simp only [parseMembers, skipWs_cons _ _ (by decide : isWsChar '"' = false),
        skipWs_cons _ _ (by decide : isWsChar ':' = false),
        skipWs_cons _ _ (by decide : isWsChar '\x7d' = false),
        parseStrBody_quoted, hval, if_true,
        (by decide : ¬ ('\x7d' : Char) = ','), if_false, ite_false]
    | fcons k2 v2 tl2 =>
      have hih := ih (by simp) (f + 1) depth rest (by simp only [flen] at hfuel2 ⊢; omega)
      have harg : serFields (.fcons k v (.fcons k2 v2 tl2)) ++ '}' :: rest =
          '"' :: (k.data.flatMap goEscapeChar ++ '"' :: (':' :: (serJ v ++ ',' ::
            (serFields (.fcons k2 v2 tl2) ++ '}' :: rest)))) := by
        simp [serFields, quoteChars]
      have hval := parseVal_scalar v hv f depth
        (',' :: (serFields (.fcons k2 v2 tl2) ++ '}' :: rest))
        (Or.inl ⟨serFields (.fcons k2 v2 tl2) ++ '}' :: rest, rfl⟩)
      rw [harg]
      conv_lhs => rw [show f + 2 = (f + 1) + 1 from rfl, parseMembers]
      simp only [skipWs_cons _ _ (by decide : isWsChar '"' = false),
        skipWs_cons _ _ (by decide : isWsChar ':' = false),
        skipWs_cons _ _ (by decide : isWsChar ',' = false),
        parseStrBody_quoted, hval, hih, if_true]

lemma serFields_cons_head (k : String) (v : JValue) (tl : JFields) :
    ∃ w, serFields (.fcons k v tl) = '"' :: w := by
  cases tl with
  | fnil =>
    exact ⟨(k.data.flatMap goEscapeChar ++ ['"']) ++ ':' :: serJ v,
      by simp [serFields, quoteChars]⟩
  | fcons k2 v2 tl2 =>
    exact ⟨(k.data.flatMap goEscapeChar ++ ['"']) ++ ':' ::
      (serJ v ++ ',' :: serFields (.fcons k2 v2 tl2)), by simp [serFields, quoteChars]⟩

lemma flen_le_serFields : ∀ fs : JFields, flen fs ≤ (serFields fs).length
  | .fnil => by simp [flen, serFields]
  | .fcons k v .fnil => by
    simp [flen, serFields, quoteChars]
  | .fcons k v (.fcons k2 v2 tl) => by
    have := flen_le_serFields (.fcons k2 v2 tl)
    simp only [flen, serFields, quoteChars] at this ⊢
    simp only [List.length_append, List.length_cons]
    omega

lemma parseVal_obj_rt (fs : JFields) (hfs : EncFields fs) (fuel depth : Nat) (rest : List Char)
    (hfuel : flen fs + 2 ≤ fuel) (hdepth : depth + 1 ≤ 10000) :
    parseVal fuel depth (serJ (.jObj fs) ++ rest) = .ok (.jObj fs, rest) := by
  obtain ⟨f, rfl⟩ : ∃ f, fuel = f + 1 := ⟨fuel - 1, by omega⟩
  cases fs with
  | fnil =>
    have harg : serJ (.jObj .fnil) ++ rest = '\x7b' :: ('\x7d' :: rest) := by
      simp [serJ, serFields]
    rw [harg]
    simp only [parseVal, skipWs_cons _ _ (by decide : isWsChar '\x7b' = false),
      skipWs_cons _ _ (by decide : isWsChar '\x7d' = false),
      (by decide : ¬ ('\x7b' : Char) = 'n'), (by decide : ¬ ('\x7b' : Char) = 't'),
      (by decide : ¬ ('\x7b' : Char) = 'f'), (by decide : ¬ ('\x7b' : Char) = '"'),
      if_false, ite_false, if_true]
    rw [if_neg (by omega : ¬ 10000 < depth + 1)]
  | fcons k v tl =>
    have hmem := parseMembers_rt _ hfs (by simp) f (depth + 1) rest
      (by simp only [flen] at hfuel ⊢; omega)
    have harg : serJ (.jObj (.fcons k v tl)) ++ rest =
        '\x7b' :: (serFields (.fcons k v tl) ++ '\x7d' :: rest) := by
      simp [serJ]
    rw [harg]
    conv_lhs => rw [parseVal]
    simp only [skipWs_cons _ _ (by decide : isWsChar '\x7b' = false),
      (by decide : ¬ ('\x7b' : Char) = 'n'), (by decide : ¬ ('\x7b' : Char) = 't'),
      (by decide : ¬ ('\x7b' : Char) = 'f'), (by decide : ¬ ('\x7b' : Char) = '"'),
      if_false, ite_false, if_true]
    rw [if_neg (by omega : ¬ 10000 < depth + 1)]
    obtain ⟨w, hw⟩ := serFields_cons_head k v tl
    rw [show serFields (.fcons k v tl) ++ '\x7d' :: rest = '"' :: (w ++ '\x7d' :: rest) from by
      rw [hw]; simp]
    simp only [skipWs_cons _ _ (by decide : isWsChar '"' = false),
      (by decide : ¬ ('"' : Char) = '\x7d'), if_false, ite_false]
    rw [show ('"' : Char) :: (w ++ '\x7d' :: rest) = serFields (.fcons k v tl) ++ '\x7d' :: rest
        from by rw [hw]; simp]
    rw [hmem]

lemma jsonParse_serObj (fs : JFields) (hfs : EncFields fs) :
    jsonParse (String.mk (serJ (.jObj fs))) = .ok (.jObj fs) := by
  have hlen : (serJ (.jObj fs)).length = (serFields fs).length + 2 := by
    simp [serJ]
  have hfs2 := flen_le_serFields fs
  have hfuel : flen fs + 2 ≤ 2 * ((String.mk (serJ (.jObj fs))).data.length + 1) := by
    have hd : (String.mk (serJ (.jObj fs))).data = serJ (.jObj fs) := rfl
    rw [hd, hlen]
    omega
  have h := parseVal_obj_rt fs hfs (2 * ((String.mk (serJ (.jObj fs))).data.length + 1)) 0 []
    hfuel (by omega)
  rw [List.append_nil] at h
  unfold jsonParse
  rw [show (String.mk (serJ (.jObj fs))).data = serJ (.jObj fs) from rfl] at h ⊢
  rw [h]
  rfl

lemma intOfLit_intLit (n : Int) (field : String) (h : intInRange n) :
    intOfLit (intLit n) field = .ok n := by
  obtain ⟨h1, h2⟩ := h
  have hdata : (intLit n).data = intLitChars n := rfl
  by_cases hneg : n < 0
  · have habs : n.natAbs ≠ 0 := by omega
    obtain ⟨d, tl, htl, hd10⟩ := natLitChars_cons n.natAbs
    have hall : (natLitChars n.natAbs).all isDigitChar = true :=
      List.all_eq_true.mpr (natLitChars_digits n.natAbs)
    have hchars : intLitChars n = '-' :: natLitChars n.natAbs := by
      simp [intLitChars, hneg]
    have hval : digitsVal (natLitChars n.natAbs) = n.natAbs := natLitChars_val n.natAbs
    simp only [intOfLit, hdata, hchars, List.head?, List.tail]
    rw [if_pos]
    · have hv : -((digitsVal (natLitChars n.natAbs) : Nat) : Int) = n := by
        rw [hval]; omega
      simp only [(by decide : (decide True) = true), if_true, hv]
      rw [if_neg (by omega)]
    · constructor
      · simp only [(by decide : (decide True) = true), if_true]
        rw [htl]
        simp
      · simp only [(by decide : (decide True) = true), if_true]
        exact hall
  · obtain ⟨d, tl, htl, hd10⟩ := natLitChars_cons n.natAbs
    have hm := (digitChar_not_special hd10).2.2.2.2.2.2.1
    have hall : (natLitChars n.natAbs).all isDigitChar = true :=
      List.all_eq_true.mpr (natLitChars_digits n.natAbs)
    have hchars : intLitChars n = natLitChars n.natAbs := by
      simp [intLitChars, hneg]
    have hval : digitsVal (natLitChars n.natAbs) = n.natAbs := natLitChars_val n.natAbs
    have hhead : (natLitChars n.natAbs).head? = some (digitChar d) := by
      rw [htl]; rfl
    have hd : (decide ((natLitChars n.natAbs).head? = some '-')) = false := by
      apply decide_eq_false
      rw [hhead]
      intro hcon
      exact hm (Option.some.injEq _ _ ▸ hcon)
    simp only [intOfLit, hdata, hchars, hd, if_false, Bool.false_eq_true, ite_false]
    rw [if_pos]
    · have hv : ((digitsVal (natLitChars n.natAbs) : Nat) : Int) = n := by
        rw [hval]; omega
      simp only [hv]
      rw [if_neg (by omega)]
    · constructor
      · rw [htl]; simp
      · exact hall

lemma decodeStep_allowLan (acc : ConfigGeneralSettings) (o : Option Bool) (tl : JFields)
    (hnone : acc.AllowLan = none) :
    decodeCfgFields acc (optEntryJ "allowLan" .jBool o tl) =
      decodeCfgFields { acc with AllowLan := o } tl := by
  cases o with
  | none =>
    have hacc : { acc with AllowLan := (none : Option Bool) } = acc := by
      obtain ⟨a, bd, lg, p, sp, mp, rp, tp⟩ := acc
      simp_all
    rw [hacc]
    rfl
  | some b => rfl

lemma decodeStep_bindAddress (acc : ConfigGeneralSettings) (o : Option String) (tl : JFields)
    (hnone : acc.BindAddress = none) :
    decodeCfgFields acc (optEntryJ "bindAddress" .jStr o tl) =
      decodeCfgFields { acc with BindAddress := o } tl := by
  cases o with
  | none =>
    have hacc : { acc with BindAddress := (none : Option String) } = acc := by
      obtain ⟨a, bd, lg, p, sp, mp, rp, tp⟩ := acc
      simp_all
    rw [hacc]
    rfl
  | some b => rfl

lemma decodeStep_logLevel (acc : ConfigGeneralSettings) (o : Option String) (tl : JFields)
    (hnone : acc.LogLevel = none) :
    decodeCfgFields acc (optEntryJ "logLevel" .jStr o tl) =
      decodeCfgFields { acc with LogLevel := o } tl := by
  cases o with
  | none =>
    have hacc : { acc with LogLevel := (none : Option String) } = acc := by
      obtain ⟨a, bd, lg, p, sp, mp, rp, tp⟩ := acc
      simp_all
    rw [hacc]
    rfl
  | some b => rfl

lemma decodeStep_port (acc : ConfigGeneralSettings) (o : Option Int) (tl : JFields)
    (hnone : acc.Port = none) (hr : optIntInRange o) :
    decodeCfgFields acc (optEntryJ "port" (fun n => .jNum (intLit n)) o tl) =
      decodeCfgFields { acc with Port := o } tl := by
  cases o with
  | none =>
    have hacc : { acc with Port := (none : Option Int) } = acc := by
      obtain ⟨a, bd, lg, p, sp, mp, rp, tp⟩ := acc
      simp_all
    rw [hacc]
    rfl
  | some n =>
    have hdec : decodeOptInt "port" (.jNum (intLit n)) = .ok (some n) := by
      simp only [decodeOptInt, intOfLit_intLit n "port" hr]
    have hset : setCfgField acc "port" (.jNum (intLit n)) =
        (decodeOptInt "port" (.jNum (intLit n))).map (fun x => { acc with Port := x }) := rfl
    simp only [optEntryJ, decodeCfgFields, hset, hdec, Except.map]

lemma decodeStep_socksPort (acc : ConfigGeneralSettings) (o : Option Int) (tl : JFields)
    (hnone : acc.SocksPort = none) (hr : optIntInRange o) :
    decodeCfgFields acc (optEntryJ "socksPort" (fun n => .jNum (intLit n)) o tl) =
      decodeCfgFields { acc with SocksPort := o } tl := by
  cases o with
  | none =>
    have hacc : { acc with SocksPort := (none : Option Int) } = acc := by
      obtain ⟨a, bd, lg, p, sp, mp, rp, tp⟩ := acc
      simp_all
    rw [hacc]
    rfl
  | some n =>
    have hdec : decodeOptInt "socksPort" (.jNum (intLit n)) = .ok (some n) := by
      simp only [decodeOptInt, intOfLit_intLit n "socksPort" hr]
    have hset : setCfgField acc "socksPort" (.jNum (intLit n)) =
        (decodeOptInt "socksPort" (.jNum (intLit n))).map (fun x => { acc with SocksPort := x }) :=
      rfl
    simp only [optEntryJ, decodeCfgFields, hset, hdec, Except.map]

lemma decodeStep_mixedPort (acc : ConfigGeneralSettings) (o : Option Int) (tl : JFields)
    (hnone : acc.MixedPort = none) (hr : optIntInRange o) :
    decodeCfgFields acc (optEntryJ "mixedPort" (fun n => .jNum (intLit n)) o tl) =
      decodeCfgFields { acc with MixedPort := o } tl := by
  cases o with
  | none =>
    have hacc : { acc with MixedPort := (none : Option Int) } = acc := by
      obtain ⟨a, bd, lg, p, sp, mp, rp, tp⟩ := acc
      simp_all
    rw [hacc]
    rfl
  | some n =>
    have hdec : decodeOptInt "mixedPort" (.jNum (intLit n)) = .ok (some n) := by
      simp only [decodeOptInt, intOfLit_intLit n "mixedPort" hr]
    have hset : setCfgField acc "mixedPort" (.jNum (intLit n)) =
        (decodeOptInt "mixedPort" (.jNum (intLit n))).map (fun x => { acc with MixedPort := x }) :=
      rfl
    simp only [optEntryJ, decodeCfgFields, hset, hdec, Except.map]

lemma decodeStep_redirPort (acc : ConfigGeneralSettings) (o : Option Int) (tl : JFields)
    (hnone : acc.RedirPort = none) (hr : optIntInRange o) :
    decodeCfgFields acc (optEntryJ "redirPort" (fun n => .jNum (intLit n)) o tl) =
      decodeCfgFields { acc with RedirPort := o } tl := by
  cases o with
  | none =>
    have hacc : { acc with RedirPort := (none : Option Int) } = acc := by
      obtain ⟨a, bd, lg, p, sp, mp, rp, tp⟩ := acc
      simp_all
    rw [hacc]
    rfl
  | some n =>
    have hdec : decodeOptInt "redirPort" (.jNum (intLit n)) = .ok (some n) := by
      simp only [decodeOptInt, intOfLit_intLit n "redirPort" hr]
    have hset : setCfgField acc "redirPort" (.jNum (intLit n)) =
        (decodeOptInt "redirPort" (.jNum (intLit n))).map (fun x => { acc with RedirPort := x }) :=
      rfl
    simp only [optEntryJ, decodeCfgFields, hset, hdec, Except.map]

lemma decodeStep_tproxyPort (acc : ConfigGeneralSettings) (o : Option Int) (tl : JFields)
    (hnone : acc.TProxyPort = none) (hr : optIntInRange o) :
    decodeCfgFields acc (optEntryJ "tproxyPort" (fun n => .jNum (intLit n)) o tl) =
      decodeCfgFields { acc with TProxyPort := o } tl := by
  cases o with
  | none =>
    have hacc : { acc with TProxyPort := (none : Option Int) } = acc := by
      obtain ⟨a, bd, lg, p, sp, mp, rp, tp⟩ := acc
      simp_all
    rw [hacc]
    rfl
  | some n =>
    have hdec : decodeOptInt "tproxyPort" (.jNum (intLit n)) = .ok (some n) := by
      simp only [decodeOptInt, intOfLit_intLit n "tproxyPort" hr]
    have hset : setCfgField acc "tproxyPort" (.jNum (intLit n)) =
        (decodeOptInt "tproxyPort" (.jNum (intLit n))).map
          (fun x => { acc with TProxyPort := x }) := rfl
    simp only [optEntryJ, decodeCfgFields, hset, hdec, Except.map]

lemma encFields_optEntryJ {α : Type} (name : String) (f : α → JValue) (o : Option α)
    (tl : JFields) (hf : ∀ v, EncScalar (f v)) (htl : EncFields tl) :
    EncFields (optEntryJ name f o tl) := by
  cases o with
  | none => exact htl
  | some v => exact .cons name (f v) tl (hf v) htl

lemma encFields_cfgFieldsJ (c : ConfigGeneralSettings) : EncFields (cfgFieldsJ c) := by
  unfold cfgFieldsJ
  refine encFields_optEntryJ _ _ _ _ (fun b => .bool b) ?_
  refine encFields_optEntryJ _ _ _ _ (fun s => .str s) ?_
  refine encFields_optEntryJ _ _ _ _ (fun s => .str s) ?_
  refine encFields_optEntryJ _ _ _ _ (fun n => .int n) ?_
  refine encFields_optEntryJ _ _ _ _ (fun n => .int n) ?_
  refine encFields_optEntryJ _ _ _ _ (fun n => .int n) ?_
  refine encFields_optEntryJ _ _ _ _ (fun n => .int n) ?_
  refine encFields_optEntryJ _ _ _ _ (fun n => .int n) ?_
  exact .nil

lemma decodeCfg_cfgFieldsJ (c : ConfigGeneralSettings) (hr : CfgInRange c) :
    decodeCfgFields {} (cfgFieldsJ c) = .ok c := by
  obtain ⟨a, bd, lg, p, sp, mp, rp, tp⟩ := c
  obtain ⟨h1, h2, h3, h4, h5⟩ := hr
  simp only [cfgFieldsJ]
  rw [decodeStep_allowLan _ _ _ rfl, decodeStep_bindAddress _ _ _ rfl,
    decodeStep_logLevel _ _ _ rfl, decodeStep_port _ _ _ rfl h1,
    decodeStep_socksPort _ _ _ rfl h2, decodeStep_mixedPort _ _ _ rfl h3,
    decodeStep_redirPort _ _ _ rfl h4, decodeStep_tproxyPort _ _ _ rfl h5]
  rfl

/-- C7: round-trip serialization fidelity — for every `ConfigGeneralSettings`
value (with its `int` fields in Go's 64-bit range, as the Go field type
enforces), `json.Marshal` succeeds, and decoding the produced `data` string
yields a value structurally equal to the original, absent (`nil`-pointer)
fields included. -/
theorem cfg_serialization_roundTrip :
    ∀ c : ConfigGeneralSettings, CfgInRange c →
      ∃ s, jsonMarshal (cfgToGo c) = .ok s ∧ unmarshalCfg s = .ok c := by
  intro c hr
  refine ⟨String.mk (serJ (.jObj (cfgFieldsJ c))), ?_, ?_⟩
  · unfold jsonMarshal
    rw [marshalCfg_eq c]
  · unfold unmarshalCfg
    rw [jsonParse_serObj _ (encFields_cfgFieldsJ c)]
    exact decodeCfg_cfgFieldsJ c hr

/-- C7 witness: the round trip at a concrete value with present and absent
fields, a negative port included. -/
theorem cfg_serialization_roundTrip_witness :
    ∃ s, jsonMarshal (cfgToGo
        (⟨some true, some "0.0.0.0", none, some 8080, some (-1), none, none, none⟩ :
          ConfigGeneralSettings)) = .ok s ∧
      unmarshalCfg s = .ok
        (⟨some true, some "0.0.0.0", none, some 8080, some (-1), none, none, none⟩ :
          ConfigGeneralSettings) :=
  cfg_serialization_roundTrip _
    ⟨⟨by decide, by decide⟩, ⟨by decide, by decide⟩, trivial, trivial, trivial⟩
